import Mathlib

/-!
Verification of the word-list-grabber utility (two Python pipelines:
`main.py`, the word pipeline, and `sentences.py`, the sentence pipeline)
against its natural-language specification.

The two source files share the same AnkiConnect client (`invoke`,
`find_notes`, `get_note_info`, `get_model_templates`); the embedding
models it once.  Python values decoded from JSON are modelled by the
`Json` inductive; a decoded response body (a Python dict) is an ordered
association list `List (String × Json)`.  Python strings compare
lexicographically by code point, which `strLe` implements on `List Char`
(Lean `Char` literals are code points, and core `String.lt` does not
kernel-reduce, so we embed the comparison directly).

Field access `note["fields"][k]["value"]` is modelled by `fieldVal`,
an association-list lookup totalised with the default `""`; every
concrete note used in the theorems below carries all the fields the
code reads, so the default is never exercised there.
-/

/-- JSON values as decoded by Python (`response.json()`).  Numbers are
modelled as integers; none of the verified logic inspects numerics. -/
inductive Json where
  | null : Json
  | bool : Bool → Json
  | num : Int → Json
  | str : String → Json
  | arr : List Json → Json
  | obj : List (String × Json) → Json

/-- Python truthiness of a decoded JSON value: `None`, `False`, `0`,
`""`, `[]` and the empty dict are falsy; everything else is truthy.
This is the test applied by `if result.get("error"):` in `invoke`. -/
def truthy : Json → Bool
  | .null => false
  | .bool b => b
  | .num n => n != 0
  | .str s => s != ""
  | .arr xs => !xs.isEmpty
  | .obj kvs => !kvs.isEmpty

/-- Python `dict.get(k)` on a decoded JSON object: the bound value when
the key is present, `None` (`Json.null`) when absent. -/
def dictGet (body : List (String × Json)) (k : String) : Json :=
  match body.lookup k with
  | some v => v
  | none => .null

/-- Outcome of `invoke` after a successful transport exchange, i.e. of
lines 35-42 of `main.py` (identically lines 34-41 of `sentences.py`):
either the `result` payload is returned, or a `RuntimeError` carrying
the `error` value is raised, or `result["result"]` raises `KeyError`. -/
inductive InvokeOutcome where
  | ok : Json → InvokeOutcome
  | apiError : Json → InvokeOutcome
  | keyError : InvokeOutcome

/-- Envelope handling of `invoke`: `if result.get("error"): raise
RuntimeError(...)` else `return result["result"]`.  The `RuntimeError`
message interpolates the error value (`f"AnkiConnect error: {...}"`);
we carry the error value itself. -/
def handleResponse (body : List (String × Json)) : InvokeOutcome :=
  if truthy (dictGet body "error") then
    .apiError (dictGet body "error")
  else
    match body.lookup "result" with
    | some r => .ok r
    | none => .keyError

/-- Transport-level result of the `requests.post` call plus
`raise_for_status` and JSON decoding, abstracted: a decoded body, a
`requests.exceptions.ConnectionError`, or any other
`requests.exceptions.RequestException` (carrying its rendered cause). -/
inductive TransportResult where
  | success : List (String × Json) → TransportResult
  | connectionError : TransportResult
  | otherRequestError : String → TransportResult

/-- Full result of one `invoke` call as observed by its caller. -/
inductive InvokeResult where
  | ok : Json → InvokeResult
  | apiError : Json → InvokeResult
  | keyError : InvokeResult
  | connectionUnavailable : String → InvokeResult
  | requestFailed : String → InvokeResult

/-- Message of the `ConnectionError` re-raised by `invoke`. -/
def connectionUnavailableMsg : String :=
  "Could not connect to AnkiConnect. Is Anki running with AnkiConnect addon installed?"

/-- The `invoke` function of both source files, over an abstracted
transport outcome: a `requests.exceptions.ConnectionError` is mapped to
a `ConnectionError` with a fixed guidance message, any other
`RequestException` `e` to `RuntimeError(f"Request failed: {e}")`, and a
successful exchange is unwrapped by `handleResponse`. -/
def invoke (t : TransportResult) : InvokeResult :=
  match t with
  | .success body =>
      match handleResponse body with
      | .ok r => .ok r
      | .apiError e => .apiError e
      | .keyError => .keyError
  | .connectionError => .connectionUnavailable connectionUnavailableMsg
  | .otherRequestError e => .requestFailed ("Request failed: " ++ e)

/-- A fetched note as used by the pipelines: its model name, its tag
list, and its field map (field name to the field's `value` text). -/
structure Note where
  modelName : String
  tags : List String
  fields : List (String × String)
deriving DecidableEq, Repr

/-- The text of field `k` of a note, `note["fields"][k]["value"]`,
totalised with `""` for an absent field. -/
def fieldVal (n : Note) (k : String) : String :=
  match n.fields.lookup k with
  | some v => v
  | none => ""

/-- Lexicographic code-point comparison of character lists, the order
Python's `sorted` uses on strings. -/
def charListLe : List Char → List Char → Bool
  | [], _ => true
  | _ :: _, [] => false
  | a :: as, b :: bs => if a = b then charListLe as bs else decide (a < b)

/-- Python string `<=`: lexicographic by code point. -/
def strLe (a b : String) : Bool := charListLe a.data b.data

/-- The ordering relation used for sorting strings. -/
def strLeR (a b : String) : Prop := strLe a b = true

instance : DecidableRel strLeR := fun a b => by
  unfold strLeR; infer_instance

/-- Python `sorted` on a list of strings: a stable ascending sort.
Since string equality is syntactic, any sort that is a sorted
permutation computes the same list, so `insertionSort` is extensionally
exact. -/
def pySort (l : List String) : List String := l.insertionSort strLeR

/-- Lookup in an ordered association list of tag buckets (a Python dict
keyed by strings). -/
def alLookup (k : String) : List (String × List String) → Option (List String)
  | [] => none
  | (k', ws) :: rest => if k' = k then some ws else alLookup k rest

/-- The bucket of key `k`, `[]` when the key is absent. -/
def bucketOf (k : String) (d : List (String × List String)) : List String :=
  (alLookup k d).getD []

/-- Append `w` to the bucket of `k`, creating the bucket at the end of
the dict when absent.  This is `if tag not in tag_dict: tag_dict[tag]
= []` followed by `tag_dict[tag].append(word)`; for keys known present
(`"all"`, `"no-tag"`) it is the plain `append`. -/
def alAppend (d : List (String × List String)) (k w : String) :
    List (String × List String) :=
  match d with
  | [] => [(k, [w])]
  | (k', ws) :: rest =>
      if k' = k then (k', ws ++ [w]) :: rest else (k', ws) :: alAppend rest k w

/-- One iteration of the grouping loop of `process_and_store` in
`main.py` (lines 115-124): the note's word is appended to `"all"`, then
to `"no-tag"` when the tag list is empty, otherwise to the bucket of
each of its tags in order. -/
def addNote (d : List (String × List String)) (n : Note) :
    List (String × List String) :=
  let w := fieldVal n "Word"
  let d := alAppend d "all" w
  if n.tags = [] then alAppend d "no-tag" w
  else n.tags.foldl (fun d t => alAppend d t w) d

/-- The grouping loop of `process_and_store` (`main.py` lines 114-124),
starting from `{"all": [], "no-tag": []}`. -/
def buildTagDict (notes : List Note) : List (String × List String) :=
  notes.foldl addNote [("all", []), ("no-tag", [])]

/-- The per-bucket sort of `main.py` line 127. -/
def sortBuckets (d : List (String × List String)) :
    List (String × List String) :=
  d.map (fun p => (p.1, pySort p.2))

/-- The grouping stage of the word pipeline applied to the notes
`process_and_store` receives. -/
def groupWords (notes : List Note) : List (String × List String) :=
  sortBuckets (buildTagDict notes)

/-- The model filter of `get_words` (`main.py` line 100). -/
def filterWordsNotes (notes : List Note) : List Note :=
  notes.filter (fun n => n.modelName == "Words")

/-- The grouping stage of the word pipeline on freshly fetched notes:
the `get_words` model filter followed by the `process_and_store`
grouping. -/
def wordGroupingStage (notes : List Note) : List (String × List String) :=
  groupWords (filterWordsNotes notes)

/-- Concatenation of the five sentence fields in the fixed order of
`sentences.py` lines 115-119, with no separators. -/
def concatFields (n : Note) : String :=
  fieldVal n "Words Before"
    ++ fieldVal n "Cloze Word"
    ++ fieldVal n "Words Between"
    ++ fieldVal n "Cloze Word Second Part"
    ++ fieldVal n "Words After"

/-- Python `list(dict.fromkeys(l))`: removes duplicates keeping the
first occurrence of each element, preserving order. -/
def fromKeysAux (acc : List String) : List String → List String
  | [] => acc
  | x :: xs => fromKeysAux (if x ∈ acc then acc else acc ++ [x]) xs

/-- Python `list(dict.fromkeys(l))`. -/
def fromKeys (l : List String) : List String := fromKeysAux [] l

/-- The transform of `process_and_store` in `sentences.py` (lines
112-126): concatenate the five fields of each note, sort, then remove
duplicates preserving the sorted order. -/
def sentenceTransform (notes : List Note) : List String :=
  fromKeys (pySort (notes.map concatFields))

/-- The word-joining loop of `main.py` lines 133-138: `", "` before
every word except the first. -/
def joinWordsLoop (ws : List String) : String :=
  (ws.foldl (fun (p : String × Bool) w =>
    (p.1 ++ (if p.2 then "" else ", ") ++ w, false)) ("", true)).1

/-- The block the word writer emits for one tag bucket (`main.py` lines
132-140): header line, joined words, then the newline ending the word
line and the trailing blank line. -/
def writeBucketBlock (tag : String) (ws : List String) : String :=
  tag ++ ":\n" ++ joinWordsLoop ws ++ "\n\n"

/-- The full content written to `words.txt` for a sorted tag dict, in
dict iteration order. -/
def writeWordsFile (d : List (String × List String)) : String :=
  d.foldl (fun acc p => acc ++ writeBucketBlock p.1 p.2) ""

/-- The content written to `sentences.txt`: one sentence per line,
newline-terminated. -/
def writeSentencesFile (l : List String) : String :=
  l.foldl (fun acc s => acc ++ s ++ "\n") ""

/-- Exceptions a pipeline's fetch phase can observe from `invoke` (or
from its own handling of a payload). -/
inductive PyExn where
  | connectionUnavailable : String → PyExn
  | requestFailed : String → PyExn
  | apiError : Json → PyExn
  | keyError : PyExn

/-- The three API calls `get_words` performs, each either returning its
typed payload or raising.  `notesInfo` is the batched result for the
ids `findNotes` returned. -/
structure FetchEnv where
  modelTemplatesCall : Except PyExn (List (String × String))
  findNotesCall : Except PyExn (List Int)
  notesInfoCall : Except PyExn (List Note)

/-- The body of the `try` block of `get_words` (`main.py` lines 72-107);
`Except.error` is a raised exception reaching the handler, `.ok none`
is a plain `return` (Python `None`), `.ok (some notes)` is `return
notes`.  `get_sentences` in `sentences.py` is the same code with the
names `"Custom Cloze"`, `"Fill Blank"` in place of `"Words"`,
`"Word"`. -/
def getWordsBody (env : FetchEnv) (modelName templateName : String) :
    Except PyExn (Option (List Note)) :=
  match env.modelTemplatesCall with
  | .error e => .error e
  | .ok templatesDict =>
    let templateNames := templatesDict.map (fun p => p.1)
    if templateName ∈ templateNames then
      let _wordTemplateOrd := templateNames.indexOf templateName
      match env.findNotesCall with
      | .error e => .error e
      | .ok noteIds =>
        if noteIds = [] then .ok none
        else
          match env.notesInfoCall with
          | .error e => .error e
          | .ok notes =>
            let notes := notes.filter (fun n => n.modelName == modelName)
            if notes = [] then .ok none else .ok (some notes)
    else .ok none

/-- `get_words` (`main.py` lines 65-110): the `except Exception`
handler logs and falls through, so every raised exception is downgraded
to the absent result `None`. -/
def getWords (env : FetchEnv) (modelName templateName : String) :
    Option (List Note) :=
  match getWordsBody env modelName templateName with
  | .ok r => r
  | .error _ => none

/-- Observable outcome of one run of the `__main__` block. -/
inductive MainOutcome where
  | cleanExitNoData : MainOutcome
  | wroteFile : String → MainOutcome
  | fatalError : PyExn → MainOutcome

/-- The `__main__` block of `main.py` (lines 153-161): fetch, then `if
not words: warn; exit(0)`, else `process_and_store(words)` writing
`words.txt` with the content `writeWordsFile (groupWords words)`. -/
def mainWords (env : FetchEnv) : MainOutcome :=
  match getWords env "Words" "Word" with
  | none => .cleanExitNoData
  | some ws =>
      if ws = [] then .cleanExitNoData
      else .wroteFile (writeWordsFile (groupWords ws))

/-! ## Order facts about the embedded string comparison -/

theorem charListLe_total (as bs : List Char) :
    charListLe as bs = true ∨ charListLe bs as = true := by
  induction as generalizing bs with
  | nil => left; rfl
  | cons a as ih =>
    cases bs with
    | nil => right; rfl
    | cons b bs =>
      by_cases hab : a = b
      · subst hab
        simpa [charListLe] using ih bs
      · rcases lt_or_gt_of_ne hab with h | h
        · left; simp [charListLe, hab, h]
        · right; simp [charListLe, Ne.symm hab, h]

theorem charListLe_trans (as : List Char) :
    ∀ bs cs, charListLe as bs = true → charListLe bs cs = true →
      charListLe as cs = true := by
  induction as with
  | nil => intro bs cs _ _; rfl
  | cons a as ih =>
    intro bs cs h₁ h₂
    cases bs with
    | nil => simp [charListLe] at h₁
    | cons b bs =>
      cases cs with
      | nil => simp [charListLe] at h₂
      | cons c cs =>
        by_cases hab : a = b
        · subst hab
          simp only [charListLe, if_pos rfl] at h₁
          by_cases hbc : a = c
          · subst hbc
            simp only [charListLe, if_pos rfl] at h₂ ⊢
            exact ih bs cs h₁ h₂
          · simpa [charListLe, hbc] using h₂
        · simp only [charListLe, if_neg hab, decide_eq_true_eq] at h₁
          by_cases hbc : b = c
          · subst hbc
            simp [charListLe, hab, h₁]
          · simp only [charListLe, if_neg hbc, decide_eq_true_eq] at h₂
            have hac : a < c := lt_trans h₁ h₂
            simp [charListLe, ne_of_lt hac, hac]

instance : IsTotal String strLeR :=
  ⟨fun a b => charListLe_total a.data b.data⟩

instance : IsTrans String strLeR :=
  ⟨fun a b c => charListLe_trans a.data b.data c.data⟩

theorem pySort_sorted (l : List String) : List.Sorted strLeR (pySort l) :=
  List.sorted_insertionSort strLeR l

theorem pySort_perm (l : List String) : List.Perm (pySort l) l :=
  List.perm_insertionSort strLeR l

theorem mem_pySort {x : String} {l : List String} : x ∈ pySort l ↔ x ∈ l :=
  (pySort_perm l).mem_iff

/-! ## Tag-dict lemmas -/

theorem alLookup_alAppend (k k' w : String) (d : List (String × List String)) :
    alLookup k (alAppend d k' w) =
      if k' = k then some (bucketOf k d ++ [w]) else alLookup k d := by
  induction d with
  | nil => simp [alAppend, alLookup, bucketOf]
  | cons p rest ih =>
    obtain ⟨k₀, ws⟩ := p
    by_cases h₀' : k₀ = k'
    · subst h₀'
      by_cases hk : k₀ = k
      · subst hk
        simp [alAppend, alLookup, bucketOf]
      · simp [alAppend, alLookup, bucketOf, hk]
    · by_cases hk : k₀ = k
      · subst hk
        have hk' : k' ≠ k₀ := fun h => h₀' h.symm
        simp [alAppend, alLookup, bucketOf, h₀', hk']
      · simp [alAppend, alLookup, bucketOf, h₀', hk, ih]

theorem bucketOf_alAppend (k k' w : String) (d : List (String × List String)) :
    bucketOf k (alAppend d k' w) =
      if k' = k then bucketOf k d ++ [w] else bucketOf k d := by
  unfold bucketOf
  rw [alLookup_alAppend]
  split <;> rfl

theorem alAppend_isSome {k : String} {d : List (String × List String)}
    (k' w : String) (h : (alLookup k d).isSome = true) :
    (alLookup k (alAppend d k' w)).isSome = true := by
  rw [alLookup_alAppend]
  split <;> simp_all

theorem mem_bucketOf_foldlTags {x k : String} (w : String) (ts : List String)
    (d : List (String × List String)) (h : x ∈ bucketOf k d) :
    x ∈ bucketOf k (ts.foldl (fun d t => alAppend d t w) d) := by
  induction ts generalizing d with
  | nil => exact h
  | cons t ts ih =>
    apply ih
    rw [bucketOf_alAppend]
    split
    · exact List.mem_append_left _ h
    · exact h

theorem mem_bucketOf_foldlTags_self (w t : String) (ts : List String)
    (d : List (String × List String)) (h : t ∈ ts) :
    w ∈ bucketOf t (ts.foldl (fun d t => alAppend d t w) d) := by
  induction ts generalizing d with
  | nil => cases h
  | cons t' ts ih =>
    rw [List.foldl_cons]
    rcases List.mem_cons.mp h with h' | h'
    · subst h'
      apply mem_bucketOf_foldlTags
      rw [bucketOf_alAppend, if_pos rfl]
      exact List.mem_append_right _ (List.mem_singleton.mpr rfl)
    · exact ih _ h'

theorem bucketOf_foldlTags_of_not_mem {k : String} (w : String) (ts : List String)
    (d : List (String × List String)) (h : k ∉ ts) :
    bucketOf k (ts.foldl (fun d t => alAppend d t w) d) = bucketOf k d := by
  induction ts generalizing d with
  | nil => rfl
  | cons t ts ih =>
    have hk : t ≠ k := fun he => h (he ▸ List.mem_cons_self t ts)
    have h' : k ∉ ts := fun hm => h (List.mem_cons_of_mem t hm)
    rw [List.foldl_cons, ih _ h', bucketOf_alAppend, if_neg hk]

theorem foldlTags_isSome {k : String} (w : String) (ts : List String)
    (d : List (String × List String)) (h : (alLookup k d).isSome = true) :
    (alLookup k (ts.foldl (fun d t => alAppend d t w) d)).isSome = true := by
  induction ts generalizing d with
  | nil => exact h
  | cons t ts ih => exact ih _ (alAppend_isSome t w h)

theorem mem_bucketOf_addNote {x k : String} (n : Note)
    (d : List (String × List String)) (h : x ∈ bucketOf k d) :
    x ∈ bucketOf k (addNote d n) := by
  unfold addNote
  have h₁ : x ∈ bucketOf k (alAppend d "all" (fieldVal n "Word")) := by
    rw [bucketOf_alAppend]
    split
    · exact List.mem_append_left _ h
    · exact h
  split
  · rw [bucketOf_alAppend]
    split
    · exact List.mem_append_left _ h₁
    · exact h₁
  · exact mem_bucketOf_foldlTags _ _ _ h₁

theorem mem_all_addNote (n : Note) (d : List (String × List String)) :
    fieldVal n "Word" ∈ bucketOf "all" (addNote d n) := by
  unfold addNote
  have h₁ : fieldVal n "Word" ∈ bucketOf "all" (alAppend d "all" (fieldVal n "Word")) := by
    rw [bucketOf_alAppend, if_pos rfl]
    exact List.mem_append_right _ (List.mem_singleton.mpr rfl)
  split
  · rw [bucketOf_alAppend]
    split
    · exact List.mem_append_left _ h₁
    · exact h₁
  · exact mem_bucketOf_foldlTags _ _ _ h₁

theorem mem_notag_addNote (n : Note) (d : List (String × List String))
    (h : n.tags = []) :
    fieldVal n "Word" ∈ bucketOf "no-tag" (addNote d n) := by
  unfold addNote
  rw [if_pos h, bucketOf_alAppend, if_pos rfl]
  exact List.mem_append_right _ (List.mem_singleton.mpr rfl)

theorem mem_tag_addNote (n : Note) (d : List (String × List String))
    {t : String} (h : t ∈ n.tags) :
    fieldVal n "Word" ∈ bucketOf t (addNote d n) := by
  unfold addNote
  rw [if_neg (List.ne_nil_of_mem h)]
  exact mem_bucketOf_foldlTags_self _ _ _ _ h

theorem addNote_isSome {k : String} (n : Note) {d : List (String × List String)}
    (h : (alLookup k d).isSome = true) :
    (alLookup k (addNote d n)).isSome = true := by
  unfold addNote
  have h₁ := alAppend_isSome (k := k) "all" (fieldVal n "Word") h
  split
  · exact alAppend_isSome _ _ h₁
  · exact foldlTags_isSome _ _ _ h₁

theorem bucketOf_all_addNote (n : Note) (d : List (String × List String))
    (h : "all" ∉ n.tags) :
    bucketOf "all" (addNote d n) = bucketOf "all" d ++ [fieldVal n "Word"] := by
  unfold addNote
  split
  · rw [bucketOf_alAppend, if_neg (by decide), bucketOf_alAppend, if_pos rfl]
  · rw [bucketOf_foldlTags_of_not_mem _ _ _ h, bucketOf_alAppend, if_pos rfl]

theorem mem_bucketOf_foldlNotes {x k : String} (notes : List Note)
    (d : List (String × List String)) (h : x ∈ bucketOf k d) :
    x ∈ bucketOf k (notes.foldl addNote d) := by
  induction notes generalizing d with
  | nil => exact h
  | cons n notes ih =>
    rw [List.foldl_cons]
    exact ih _ (mem_bucketOf_addNote n d h)

theorem mem_all_foldlNotes {n : Note} (notes : List Note)
    (d : List (String × List String)) (h : n ∈ notes) :
    fieldVal n "Word" ∈ bucketOf "all" (notes.foldl addNote d) := by
  induction notes generalizing d with
  | nil => cases h
  | cons n' notes ih =>
    rw [List.foldl_cons]
    rcases List.mem_cons.mp h with h' | h'
    · subst h'
      exact mem_bucketOf_foldlNotes _ _ (mem_all_addNote n d)
    · exact ih _ h'

theorem mem_notag_foldlNotes {n : Note} (notes : List Note)
    (d : List (String × List String)) (h : n ∈ notes) (ht : n.tags = []) :
    fieldVal n "Word" ∈ bucketOf "no-tag" (notes.foldl addNote d) := by
  induction notes generalizing d with
  | nil => cases h
  | cons n' notes ih =>
    rw [List.foldl_cons]
    rcases List.mem_cons.mp h with h' | h'
    · subst h'
      exact mem_bucketOf_foldlNotes _ _ (mem_notag_addNote n d ht)
    · exact ih _ h'

theorem mem_tag_foldlNotes {n : Note} {t : String} (notes : List Note)
    (d : List (String × List String)) (h : n ∈ notes) (ht : t ∈ n.tags) :
    fieldVal n "Word" ∈ bucketOf t (notes.foldl addNote d) := by
  induction notes generalizing d with
  | nil => cases h
  | cons n' notes ih =>
    rw [List.foldl_cons]
    rcases List.mem_cons.mp h with h' | h'
    · subst h'
      exact mem_bucketOf_foldlNotes _ _ (mem_tag_addNote n d ht)
    · exact ih _ h'

theorem foldlNotes_isSome {k : String} (notes : List Note)
    {d : List (String × List String)} (h : (alLookup k d).isSome = true) :
    (alLookup k (notes.foldl addNote d)).isSome = true := by
  induction notes generalizing d with
  | nil => exact h
  | cons n notes ih =>
    rw [List.foldl_cons]
    exact ih (addNote_isSome n h)

theorem bucketOf_all_foldlNotes (notes : List Note)
    (d : List (String × List String)) (h : ∀ n ∈ notes, "all" ∉ n.tags) :
    bucketOf "all" (notes.foldl addNote d) =
      bucketOf "all" d ++ notes.map (fun n => fieldVal n "Word") := by
  induction notes generalizing d with
  | nil => simp
  | cons n notes ih =>
    rw [List.foldl_cons, ih _ (fun m hm => h m (List.mem_cons_of_mem n hm)),
      bucketOf_all_addNote n d (h n (List.mem_cons_self n notes)), List.map_cons,
      List.append_assoc, List.singleton_append]

theorem alLookup_sortBuckets (k : String) (d : List (String × List String)) :
    alLookup k (sortBuckets d) = (alLookup k d).map pySort := by
  induction d with
  | nil => rfl
  | cons p rest ih =>
    obtain ⟨k₀, ws⟩ := p
    by_cases hk : k₀ = k
    · simp [sortBuckets, alLookup, hk]
    · simpa [sortBuckets, alLookup, hk] using ih

theorem bucketOf_sortBuckets (k : String) (d : List (String × List String)) :
    bucketOf k (sortBuckets d) = pySort (bucketOf k d) := by
  unfold bucketOf
  rw [alLookup_sortBuckets]
  cases alLookup k d <;> rfl

theorem sorted_of_mem_sortBuckets {p : String × List String}
    {d : List (String × List String)} (h : p ∈ sortBuckets d) :
    List.Sorted strLeR p.2 := by
  obtain ⟨q, _, hq⟩ := List.mem_map.mp h
  rw [← hq]
  exact pySort_sorted q.2

/-! ## Dedup and writer-format lemmas -/

theorem mem_fromKeysAux (x : String) (l acc : List String) :
    x ∈ fromKeysAux acc l ↔ x ∈ acc ∨ x ∈ l := by
  induction l generalizing acc with
  | nil => simp [fromKeysAux]
  | cons y l ih =>
    rw [fromKeysAux, ih]
    by_cases hy : y ∈ acc
    · rw [if_pos hy]
      constructor
      · rintro (h | h)
        · exact Or.inl h
        · exact Or.inr (List.mem_cons_of_mem y h)
      · rintro (h | h)
        · exact Or.inl h
        · rcases List.mem_cons.mp h with h | h
          · exact Or.inl (h ▸ hy)
          · exact Or.inr h
    · rw [if_neg hy]
      simp only [List.mem_append, List.mem_singleton, List.mem_cons]
      tauto

theorem nodup_fromKeysAux (l : List String) {acc : List String}
    (h : acc.Nodup) : (fromKeysAux acc l).Nodup := by
  induction l generalizing acc with
  | nil => exact h
  | cons y l ih =>
    rw [fromKeysAux]
    by_cases hy : y ∈ acc
    · rw [if_pos hy]; exact ih h
    · rw [if_neg hy]
      exact ih (by simp [List.nodup_append, h, hy])

theorem sorted_fromKeysAux (l : List String) {acc : List String}
    (hacc : List.Sorted strLeR acc) (hl : List.Sorted strLeR l)
    (hcross : ∀ a ∈ acc, ∀ b ∈ l, strLeR a b) :
    List.Sorted strLeR (fromKeysAux acc l) := by
  induction l generalizing acc with
  | nil => exact hacc
  | cons y l ih =>
    obtain ⟨hy_le, hl'⟩ := List.sorted_cons.mp hl
    rw [fromKeysAux]
    by_cases hy : y ∈ acc
    · rw [if_pos hy]
      exact ih hacc hl' fun a ha b hb => hcross a ha b (List.mem_cons_of_mem y hb)
    · rw [if_neg hy]
      apply ih _ hl'
      · intro a ha b hb
        rcases List.mem_append.mp ha with ha | ha
        · exact hcross a ha b (List.mem_cons_of_mem y hb)
        · rw [List.mem_singleton.mp ha]
          exact hy_le b hb
      · rw [List.Sorted, List.pairwise_append]
        refine ⟨hacc, List.pairwise_singleton _ _, ?_⟩
        intro a ha b hb
        rw [List.mem_singleton.mp hb]
        exact hcross a ha y (List.mem_cons_self y l)

theorem mem_fromKeys (x : String) (l : List String) :
    x ∈ fromKeys l ↔ x ∈ l := by
  rw [fromKeys, mem_fromKeysAux]
  simp

theorem nodup_fromKeys (l : List String) : (fromKeys l).Nodup :=
  nodup_fromKeysAux l List.nodup_nil

theorem sorted_fromKeys (l : List String) (h : List.Sorted strLeR l) :
    List.Sorted strLeR (fromKeys l) :=
  sorted_fromKeysAux l List.sorted_nil h (fun a ha => absurd ha (List.not_mem_nil a))

/-- The separator-tail of a comma-separated rendering. -/
def commaTail : List String → String
  | [] => ""
  | w :: ws => ", " ++ w ++ commaTail ws

/-- The format the specification describes for a bucket's word line:
words joined by a comma and a space, with no trailing separator. -/
def commaSeparated : List String → String
  | [] => ""
  | [w] => w
  | w :: ws => w ++ ", " ++ commaSeparated ws

theorem commaSeparated_eq_tail (w : String) (ws : List String) :
    commaSeparated (w :: ws) = w ++ commaTail ws := by
  induction ws generalizing w with
  | nil => exact (String.append_empty w).symm
  | cons w' ws ih =>
    show w ++ ", " ++ commaSeparated (w' :: ws) = w ++ commaTail (w' :: ws)
    rw [ih, commaTail]
    simp only [String.append_assoc]

theorem joinWordsLoop_aux (ws : List String) (s : String) :
    (ws.foldl (fun (p : String × Bool) w =>
      (p.1 ++ (if p.2 then "" else ", ") ++ w, false)) (s, false)).1 =
      s ++ commaTail ws := by
  induction ws generalizing s with
  | nil => exact (String.append_empty s).symm
  | cons w ws ih =>
    rw [List.foldl_cons]
    simp only [if_neg Bool.false_ne_true]
    rw [ih, commaTail, ← String.append_assoc, ← String.append_assoc]

theorem joinWordsLoop_eq (ws : List String) :
    joinWordsLoop ws = commaSeparated ws := by
  cases ws with
  | nil => rfl
  | cons w ws =>
    rw [commaSeparated_eq_tail, ← joinWordsLoop_aux ws w]
    rfl

/-! ## Fetch-phase control-flow lemmas -/

theorem getWords_of_templates_error (env : FetchEnv) (m t : String) (e : PyExn)
    (h : env.modelTemplatesCall = .error e) : getWords env m t = none := by
  simp [getWords, getWordsBody, h]

theorem getWords_of_no_template (env : FetchEnv) (m t : String)
    (ts : List (String × String)) (h : env.modelTemplatesCall = .ok ts)
    (ht : t ∉ ts.map (fun p => p.1)) : getWords env m t = none := by
  simp [getWords, getWordsBody, h, ht]

theorem getWords_of_find_error (env : FetchEnv) (m t : String) (e : PyExn)
    (hf : env.findNotesCall = .error e) : getWords env m t = none := by
  cases h : env.modelTemplatesCall with
  | error e' => exact getWords_of_templates_error env m t e' h
  | ok ts =>
    by_cases ht : t ∈ ts.map (fun p => p.1)
    · simp [getWords, getWordsBody, h, ht, hf]
    · simp [getWords, getWordsBody, h, ht]

theorem getWords_of_empty_deck (env : FetchEnv) (m t : String)
    (hf : env.findNotesCall = .ok []) : getWords env m t = none := by
  cases h : env.modelTemplatesCall with
  | error e' => exact getWords_of_templates_error env m t e' h
  | ok ts =>
    by_cases ht : t ∈ ts.map (fun p => p.1)
    · simp [getWords, getWordsBody, h, ht, hf]
    · simp [getWords, getWordsBody, h, ht]

theorem getWords_of_info_error (env : FetchEnv) (m t : String) (e : PyExn)
    (hi : env.notesInfoCall = .error e) : getWords env m t = none := by
  cases h : env.modelTemplatesCall with
  | error e' => exact getWords_of_templates_error env m t e' h
  | ok ts =>
    by_cases ht : t ∈ ts.map (fun p => p.1)
    · cases hf : env.findNotesCall with
      | error e' => exact getWords_of_find_error env m t e' hf
      | ok ids =>
        by_cases hids : ids = []
        · subst hids; exact getWords_of_empty_deck env m t hf
        · simp [getWords, getWordsBody, h, ht, hf, hids, hi]
    · simp [getWords, getWordsBody, h, ht]

theorem getWords_of_no_match (env : FetchEnv) (m t : String) (ns : List Note)
    (hi : env.notesInfoCall = .ok ns)
    (hm : ns.filter (fun n => n.modelName == m) = []) :
    getWords env m t = none := by
  cases h : env.modelTemplatesCall with
  | error e' => exact getWords_of_templates_error env m t e' h
  | ok ts =>
    by_cases ht : t ∈ ts.map (fun p => p.1)
    · cases hf : env.findNotesCall with
      | error e' => exact getWords_of_find_error env m t e' hf
      | ok ids =>
        by_cases hids : ids = []
        · subst hids; exact getWords_of_empty_deck env m t hf
        · simp [getWords, getWordsBody, h, ht, hf, hids, hi, hm]
    · simp [getWords, getWordsBody, h, ht]

theorem getWords_success (env : FetchEnv) (m t : String)
    (ts : List (String × String)) (ids : List Int) (ns : List Note)
    (h : env.modelTemplatesCall = .ok ts) (ht : t ∈ ts.map (fun p => p.1))
    (hf : env.findNotesCall = .ok ids) (hids : ids ≠ [])
    (hi : env.notesInfoCall = .ok ns)
    (hm : ns.filter (fun n => n.modelName == m) ≠ []) :
    getWords env m t = some (ns.filter (fun n => n.modelName == m)) := by
  simp [getWords, getWordsBody, h, ht, hf, hids, hi, hm]

theorem mainWords_of_none (env : FetchEnv)
    (h : getWords env "Words" "Word" = none) :
    mainWords env = .cleanExitNoData := by
  simp [mainWords, h]

/-! ## Claim theorems -/

/-- C2: for every decoded JSON response body, when the body has no
non-empty (truthy) `error` field, `invoke` returns exactly the `result`
payload unaltered; when the body has a non-empty `error` field,
`invoke` raises a `RuntimeError` carrying that error and never returns
a value. -/
theorem c2_invoke_result_envelope (body : List (String × Json)) :
    (truthy (dictGet body "error") = false →
      ∀ r, body.lookup "result" = some r → invoke (.success body) = .ok r) ∧
    (truthy (dictGet body "error") = true →
      invoke (.success body) = .apiError (dictGet body "error") ∧
      ∀ r, ¬ invoke (.success body) = .ok r) := by
  constructor
  · intro hf r hr
    simp [invoke, handleResponse, hf, hr]
  · intro ht
    have hstep : invoke (.success body) = .apiError (dictGet body "error") := by
      simp [invoke, handleResponse, ht]
    refine ⟨hstep, fun r h => ?_⟩
    rw [hstep] at h
    exact InvokeResult.noConfusion h

/-- C2 witness: a body with a null `error` and a string `result` is
returned unaltered, and a body with error `"boom"` is not returned. -/
theorem c2_invoke_result_envelope_witness :
    invoke (.success [("error", Json.null), ("result", Json.str "payload")]) =
      .ok (Json.str "payload") ∧
    ¬ invoke (.success [("error", Json.str "boom"), ("result", Json.str "payload")]) =
      .ok (Json.str "payload") :=
  ⟨(c2_invoke_result_envelope
      [("error", Json.null), ("result", Json.str "payload")]).1 rfl _ rfl,
   ((c2_invoke_result_envelope
      [("error", Json.str "boom"), ("result", Json.str "payload")]).2 rfl).2 _⟩

/-- C3: a transport-level connection failure makes `invoke` fail with
the distinct `ConnectionError` whose message tells the user to check
that Anki and the AnkiConnect addon are running, while any other
transport error makes it fail with `RuntimeError("Request failed: ...")`
carrying the underlying cause; the connection failure is distinct from
every other outcome of `invoke`. -/
theorem c3_transport_error_taxonomy :
    invoke .connectionError = .connectionUnavailable connectionUnavailableMsg ∧
    connectionUnavailableMsg =
      "Could not connect to AnkiConnect. Is Anki running with AnkiConnect addon installed?" ∧
    (∀ e, invoke (.otherRequestError e) = .requestFailed ("Request failed: " ++ e)) ∧
    (∀ e, ¬ invoke .connectionError = invoke (.otherRequestError e)) ∧
    (∀ e, ¬ invoke .connectionError = .requestFailed e) ∧
    (∀ j, ¬ invoke .connectionError = .apiError j) ∧
    (¬ invoke .connectionError = .keyError) ∧
    (∀ r, ¬ invoke .connectionError = .ok r) :=
  ⟨rfl, rfl, fun _ => rfl,
   fun _ h => InvokeResult.noConfusion h,
   fun _ h => InvokeResult.noConfusion h,
   fun _ h => InvokeResult.noConfusion h,
   fun h => InvokeResult.noConfusion h,
   fun _ h => InvokeResult.noConfusion h⟩

/-- C9: a present-but-falsy `error` value (empty string, null, false,
or 0) is treated as success: `invoke` returns the `result` payload just
as when the `error` key is absent, so the two cases are
indistinguishable at the public interface. -/
theorem c9_falsy_error_is_success (body : List (String × Json)) :
    (∀ e r, body.lookup "error" = some e → truthy e = false →
      body.lookup "result" = some r → invoke (.success body) = .ok r) ∧
    (∀ r, body.lookup "error" = none → body.lookup "result" = some r →
      invoke (.success body) = .ok r) ∧
    truthy (Json.str "") = false ∧ truthy Json.null = false ∧
    truthy (Json.bool false) = false ∧ truthy (Json.num 0) = false := by
  refine ⟨?_, ?_, rfl, rfl, rfl, rfl⟩
  · intro e r he hf hr
    have hd : dictGet body "error" = e := by simp [dictGet, he]
    simp [invoke, handleResponse, hd, hf, hr]
  · intro r he hr
    have hd : dictGet body "error" = Json.null := by simp [dictGet, he]
    simp [invoke, handleResponse, hd, truthy, hr]

/-- C9 witness: a body whose `error` is the empty string yields the
`result` payload. -/
theorem c9_falsy_error_is_success_witness :
    invoke (.success [("error", Json.str ""), ("result", Json.str "ok")]) =
      .ok (Json.str "ok") :=
  (c9_falsy_error_is_success _).1 (Json.str "") (Json.str "ok") rfl rfl rfl

theorem exists_of_mem_bucketOf {x k : String} {d : List (String × List String)}
    (h : x ∈ bucketOf k d) : ∃ ws, alLookup k d = some ws ∧ x ∈ ws := by
  unfold bucketOf at h
  cases hl : alLookup k d with
  | none => rw [hl] at h; cases h
  | some ws => rw [hl] at h; exact ⟨ws, rfl, h⟩

/-- The three notes of the specification's grouping example. -/
def wordExampleNotes : List Note :=
  [⟨"Words", [], [("Word", "b")]⟩,
   ⟨"Words", ["noun"], [("Word", "a")]⟩,
   ⟨"Other", [], [("Word", "z")]⟩]

/-- C1: for every list of fetched notes, the grouping stage of the word
pipeline keeps exactly the notes whose model name is `"Words"`; the
bucket `"all"` exists and contains the `"Word"` field value of every
surviving note; the bucket `"no-tag"` exists and contains the words of
surviving notes with no tags; every tag on a surviving note has a
bucket containing that note's word; every bucket is sorted ascending in
code-point order; and on the specification's example it produces
`all = ["a","b"]`, `no-tag = ["b"]`, `noun = ["a"]`. -/
theorem c1_word_grouping_stage (notes : List Note) :
    (∀ n, n ∈ filterWordsNotes notes ↔ n ∈ notes ∧ n.modelName = "Words") ∧
    (∃ ws, alLookup "all" (wordGroupingStage notes) = some ws ∧
      ∀ n ∈ filterWordsNotes notes, fieldVal n "Word" ∈ ws) ∧
    (∃ ws, alLookup "no-tag" (wordGroupingStage notes) = some ws ∧
      ∀ n ∈ filterWordsNotes notes, n.tags = [] → fieldVal n "Word" ∈ ws) ∧
    (∀ n ∈ filterWordsNotes notes, ∀ t ∈ n.tags,
      ∃ ws, alLookup t (wordGroupingStage notes) = some ws ∧
        fieldVal n "Word" ∈ ws) ∧
    (∀ p ∈ wordGroupingStage notes, List.Sorted strLeR p.2) ∧
    wordGroupingStage wordExampleNotes =
      [("all", ["a", "b"]), ("no-tag", ["b"]), ("noun", ["a"])] := by
  have hW : wordGroupingStage notes =
      sortBuckets (buildTagDict (filterWordsNotes notes)) := rfl
  refine ⟨?_, ?_, ?_, ?_, ?_, by decide⟩
  · intro n
    simp [filterWordsNotes, List.mem_filter]
  · have hsome : (alLookup "all" (buildTagDict (filterWordsNotes notes))).isSome = true := by
      unfold buildTagDict
      apply foldlNotes_isSome
      decide
    obtain ⟨ws₀, hws₀⟩ := Option.isSome_iff_exists.mp hsome
    refine ⟨pySort ws₀, ?_, ?_⟩
    · rw [hW, alLookup_sortBuckets, hws₀]; rfl
    · intro n hn
      have hm : fieldVal n "Word" ∈
          bucketOf "all" (buildTagDict (filterWordsNotes notes)) := by
        unfold buildTagDict
        exact mem_all_foldlNotes _ _ hn
      rw [bucketOf, hws₀] at hm
      exact mem_pySort.mpr hm
  · have hsome : (alLookup "no-tag" (buildTagDict (filterWordsNotes notes))).isSome = true := by
      unfold buildTagDict
      apply foldlNotes_isSome
      decide
    obtain ⟨ws₀, hws₀⟩ := Option.isSome_iff_exists.mp hsome
    refine ⟨pySort ws₀, ?_, ?_⟩
    · rw [hW, alLookup_sortBuckets, hws₀]; rfl
    · intro n hn ht
      have hm : fieldVal n "Word" ∈
          bucketOf "no-tag" (buildTagDict (filterWordsNotes notes)) := by
        unfold buildTagDict
        exact mem_notag_foldlNotes _ _ hn ht
      rw [bucketOf, hws₀] at hm
      exact mem_pySort.mpr hm
  · intro n hn t ht
    have hm : fieldVal n "Word" ∈
        bucketOf t (buildTagDict (filterWordsNotes notes)) := by
      unfold buildTagDict
      exact mem_tag_foldlNotes _ _ hn ht
    have hm' : fieldVal n "Word" ∈ bucketOf t (wordGroupingStage notes) := by
      rw [hW, bucketOf_sortBuckets]
      exact mem_pySort.mpr hm
    exact exists_of_mem_bucketOf hm'
  · intro p hp
    rw [hW] at hp
    exact sorted_of_mem_sortBuckets hp

/-- C1 witness: on the example notes, the surviving note tagged `noun`
has its word `"a"` in an existing `noun` bucket. -/
theorem c1_word_grouping_stage_witness :
    ∃ ws, alLookup "noun" (wordGroupingStage wordExampleNotes) = some ws ∧
      "a" ∈ ws :=
  (c1_word_grouping_stage wordExampleNotes).2.2.2.1
    ⟨"Words", ["noun"], [("Word", "a")]⟩ (by decide) "noun" (by decide)

/-- A surviving note whose tag list contains the literal tag `"all"`. -/
def allTagNote : Note := ⟨"Words", ["all"], [("Word", "x")]⟩

/-- C10 counterexample: the note `allTagNote` survives the model
filter, yet the `"all"` bucket receives its word twice — once from the
unconditional append and once from the tag loop, because its tag list
contains the literal tag `"all"` — so the bucket does not have exactly
one entry per surviving note. -/
theorem c10_counterexample_all_tag :
    filterWordsNotes [allTagNote] = [allTagNote] ∧
    bucketOf "all" (wordGroupingStage [allTagNote]) = ["x", "x"] ∧
    ¬ (bucketOf "all" (wordGroupingStage [allTagNote])).length =
        (filterWordsNotes [allTagNote]).length := by decide

/-- A surviving note with word `"x"` and no tags. -/
def dupNoteA : Note := ⟨"Words", [], [("Word", "x")]⟩

/-- A distinct surviving note with the same word `"x"`. -/
def dupNoteB : Note := ⟨"Words", ["noun"], [("Word", "x")]⟩

/-- A sentence note whose field concatenation is `"s"`. -/
def dupSentA : Note :=
  ⟨"Custom Cloze", [],
   [("Words Before", "s"), ("Cloze Word", ""), ("Words Between", ""),
    ("Cloze Word Second Part", ""), ("Words After", "")]⟩

/-- A distinct sentence note with the same concatenation `"s"`. -/
def dupSentB : Note :=
  ⟨"Custom Cloze", ["other"],
   [("Words Before", ""), ("Cloze Word", "s"), ("Words Between", ""),
    ("Cloze Word Second Part", ""), ("Words After", "")]⟩

/-- C10 (amended): the word grouping never deduplicates — whenever no
surviving note carries the literal tag `"all"`, the `"all"` bucket is a
permutation of the surviving notes' words, one entry per surviving
note; two distinct notes with the same word therefore put it in the
bucket twice, unlike the sentence pipeline, which deduplicates equal
concatenations from distinct notes.  (Without the proviso a note
tagged `"all"` contributes twice, see the counterexample.) -/
theorem c10_no_dedup_amended (notes : List Note) :
    ((∀ n ∈ filterWordsNotes notes, "all" ∉ n.tags) →
      List.Perm (bucketOf "all" (wordGroupingStage notes))
        ((filterWordsNotes notes).map (fun n => fieldVal n "Word")) ∧
      (bucketOf "all" (wordGroupingStage notes)).length =
        (filterWordsNotes notes).length) ∧
    bucketOf "all" (wordGroupingStage [dupNoteA, dupNoteB]) = ["x", "x"] ∧
    ¬ dupNoteA = dupNoteB ∧
    sentenceTransform [dupSentA, dupSentB] = ["s"] ∧
    ¬ dupSentA = dupSentB := by
  refine ⟨?_, by decide, by decide, by decide, by decide⟩
  intro h
  have hb : bucketOf "all" (buildTagDict (filterWordsNotes notes)) =
      (filterWordsNotes notes).map (fun n => fieldVal n "Word") := by
    unfold buildTagDict
    rw [bucketOf_all_foldlNotes _ _ h]
    rfl
  have hperm : List.Perm (bucketOf "all" (wordGroupingStage notes))
      ((filterWordsNotes notes).map (fun n => fieldVal n "Word")) := by
    have hW : wordGroupingStage notes =
        sortBuckets (buildTagDict (filterWordsNotes notes)) := rfl
    rw [hW, bucketOf_sortBuckets, hb]
    exact pySort_perm _
  exact ⟨hperm, by rw [hperm.length_eq, List.length_map]⟩

/-- C10 witness: on the two distinct notes sharing word `"x"`, the
`"all"` bucket is a permutation of both words. -/
theorem c10_no_dedup_amended_witness :
    List.Perm (bucketOf "all" (wordGroupingStage [dupNoteA, dupNoteB]))
      ((filterWordsNotes [dupNoteA, dupNoteB]).map (fun n => fieldVal n "Word")) :=
  ((c10_no_dedup_amended [dupNoteA, dupNoteB]).1 (by decide)).1

/-- A sentence note whose five fields concatenate to `"bb"`. -/
def sentNoteBB : Note :=
  ⟨"Custom Cloze", [],
   [("Words Before", "b"), ("Cloze Word", "b"), ("Words Between", ""),
    ("Cloze Word Second Part", ""), ("Words After", "")]⟩

/-- A sentence note whose five fields concatenate to `"aa"`. -/
def sentNoteAA : Note :=
  ⟨"Custom Cloze", [],
   [("Words Before", "a"), ("Cloze Word", "a"), ("Words Between", ""),
    ("Cloze Word Second Part", ""), ("Words After", "")]⟩

/-- C4: the sentence pipeline concatenates the five fields of each
surviving note in the fixed order with no separators, sorts the
resulting strings ascending in code-point order, and removes
duplicates while preserving the sorted order; the output is sorted,
duplicate-free, and has exactly the concatenations as members; notes
whose raw concatenations are `["bb","aa","aa"]` yield `["aa","bb"]`. -/
theorem c4_sentence_pipeline (notes : List Note) :
    List.Sorted strLeR (sentenceTransform notes) ∧
    (sentenceTransform notes).Nodup ∧
    (∀ x, x ∈ sentenceTransform notes ↔ x ∈ notes.map concatFields) ∧
    [sentNoteBB, sentNoteAA, sentNoteAA].map concatFields = ["bb", "aa", "aa"] ∧
    sentenceTransform [sentNoteBB, sentNoteAA, sentNoteAA] = ["aa", "bb"] := by
  refine ⟨?_, ?_, ?_, by decide, by decide⟩
  · exact sorted_fromKeys _ (pySort_sorted _)
  · exact nodup_fromKeys _
  · intro x
    rw [sentenceTransform, mem_fromKeys, mem_pySort]

/-- C4 witness: membership in the deduplicated output coincides with
membership among the raw concatenations on the example notes. -/
theorem c4_sentence_pipeline_witness :
    "aa" ∈ sentenceTransform [sentNoteBB, sentNoteAA, sentNoteAA] ↔
      "aa" ∈ [sentNoteBB, sentNoteAA, sentNoteAA].map concatFields :=
  (c4_sentence_pipeline [sentNoteBB, sentNoteAA, sentNoteAA]).2.2.1 "aa"

/-- C5: the word writer emits for a bucket `tag` with words
`[w1, ..., wN]` exactly the block `tag ++ ":\n"` followed by the words
joined by `", "` with no trailing separator and a trailing blank line;
a file holding a single bucket is exactly that block, and for the tag
`"tag"` with words `["x","y"]` the written content round-trips to
`"tag:\nx, y\n\n"` exactly. -/
theorem c5_word_writer_format (tag : String) (ws : List String) :
    writeBucketBlock tag ws = tag ++ ":\n" ++ commaSeparated ws ++ "\n\n" ∧
    writeWordsFile [(tag, ws)] = writeBucketBlock tag ws ∧
    writeWordsFile [("tag", ["x", "y"])] = "tag:\nx, y\n\n" := by
  refine ⟨?_, ?_, by decide⟩
  · rw [writeBucketBlock, joinWordsLoop_eq]
  · show "" ++ writeBucketBlock tag ws = writeBucketBlock tag ws
    exact String.empty_append _

/-- C5 witness: the block for tag `"tag"` with words `["x","y"]` in the
specification's comma-separated form. -/
theorem c5_word_writer_format_witness :
    writeBucketBlock "tag" ["x", "y"] =
      "tag" ++ ":\n" ++ commaSeparated ["x", "y"] ++ "\n\n" :=
  (c5_word_writer_format "tag" ["x", "y"]).1

/-- C6: every "no qualifying data" condition — required template name
absent from the model's template list, deck query returning zero note
ids, or no fetched note matching the expected model name — makes the
fetch phase return the absent result `None` and the top level exit
cleanly after a warning, skipping the write step, with no exception
raised. -/
theorem c6_no_data_is_non_fatal (env : FetchEnv) :
    (∀ ts, env.modelTemplatesCall = .ok ts → "Word" ∉ ts.map (fun p => p.1) →
      getWords env "Words" "Word" = none ∧ mainWords env = .cleanExitNoData) ∧
    (env.findNotesCall = .ok [] →
      getWords env "Words" "Word" = none ∧ mainWords env = .cleanExitNoData) ∧
    (∀ ns, env.notesInfoCall = .ok ns → (∀ n ∈ ns, ¬ n.modelName = "Words") →
      getWords env "Words" "Word" = none ∧ mainWords env = .cleanExitNoData) := by
  refine ⟨?_, ?_, ?_⟩
  · intro ts h ht
    have hg := getWords_of_no_template env "Words" "Word" ts h ht
    exact ⟨hg, mainWords_of_none env hg⟩
  · intro hf
    have hg := getWords_of_empty_deck env "Words" "Word" hf
    exact ⟨hg, mainWords_of_none env hg⟩
  · intro ns hi hm
    have hfil : ns.filter (fun n => n.modelName == "Words") = [] := by
      rw [List.filter_eq_nil_iff]
      intro n hn
      simpa using hm n hn
    have hg := getWords_of_no_match env "Words" "Word" ns hi hfil
    exact ⟨hg, mainWords_of_none env hg⟩

/-- An environment whose template list lacks `"Word"`, whose deck query
is empty, and whose fetched notes match no expected model. -/
def noDataEnv : FetchEnv :=
  ⟨.ok [("Other", "c")], .ok [], .ok [⟨"Other", [], []⟩]⟩

/-- C6 witness: with an empty deck query the run exits cleanly with no
file written. -/
theorem c6_no_data_is_non_fatal_witness :
    getWords noDataEnv "Words" "Word" = none ∧
    mainWords noDataEnv = .cleanExitNoData :=
  (c6_no_data_is_non_fatal noDataEnv).2.1 rfl

/-- An environment in which every API call raises the re-raised
`ConnectionError` of `invoke`. -/
def connDownEnv : FetchEnv :=
  ⟨.error (.connectionUnavailable connectionUnavailableMsg),
   .error (.connectionUnavailable connectionUnavailableMsg),
   .error (.connectionUnavailable connectionUnavailableMsg)⟩

/-- C7 counterexample: when the endpoint is unreachable the
`ConnectionError` is caught by the blanket `except Exception` handler
of `get_words`, the fetch returns the absent result, and the process
exits cleanly with only a warning — it never reaches a fatal outcome,
contradicting the claim that the condition is treated as fatal. -/
theorem c7_counterexample_clean_exit :
    getWords connDownEnv "Words" "Word" = none ∧
    mainWords connDownEnv = .cleanExitNoData ∧
    ∀ e, ¬ mainWords connDownEnv = .fatalError e :=
  ⟨rfl, rfl, fun _ h => MainOutcome.noConfusion h⟩

/-- C7 (amended): a `ConnectionUnavailable` failure in any of the three
API calls is swallowed by the blanket exception handler of the fetch
phase and downgraded to the non-fatal absent-result path: the fetch
returns `None` and the process exits cleanly with a warning, skipping
the write step, instead of stopping fatally. -/
theorem c7_connection_error_swallowed (env : FetchEnv) (msg : String)
    (h : env.modelTemplatesCall = .error (.connectionUnavailable msg) ∨
      env.findNotesCall = .error (.connectionUnavailable msg) ∨
      env.notesInfoCall = .error (.connectionUnavailable msg)) :
    getWords env "Words" "Word" = none ∧
    mainWords env = .cleanExitNoData := by
  have hg : getWords env "Words" "Word" = none := by
    rcases h with h | h | h
    · exact getWords_of_templates_error env _ _ _ h
    · exact getWords_of_find_error env _ _ _ h
    · exact getWords_of_info_error env _ _ _ h
  exact ⟨hg, mainWords_of_none env hg⟩

/-- C7 witness: the all-connections-down environment exits cleanly. -/
theorem c7_connection_error_swallowed_witness :
    getWords connDownEnv "Words" "Word" = none ∧
    mainWords connDownEnv = .cleanExitNoData :=
  c7_connection_error_swallowed connDownEnv connectionUnavailableMsg (Or.inl rfl)

/-- C8: two template lists that both contain the required template
name, wherever it sits, give the fetch stage the same result and the
run the same outcome — the computed ordinal has no downstream
effect. -/
theorem c8_template_ordinal_unused (env : FetchEnv)
    (a b : List (String × String))
    (ha : "Word" ∈ a.map (fun p => p.1)) (hb : "Word" ∈ b.map (fun p => p.1)) :
    getWords { env with modelTemplatesCall := .ok a } "Words" "Word" =
      getWords { env with modelTemplatesCall := .ok b } "Words" "Word" ∧
    mainWords { env with modelTemplatesCall := .ok a } =
      mainWords { env with modelTemplatesCall := .ok b } := by
  have hg : getWords { env with modelTemplatesCall := .ok a } "Words" "Word" =
      getWords { env with modelTemplatesCall := .ok b } "Words" "Word" := by
    simp [getWords, getWordsBody, ha, hb]
  refine ⟨hg, ?_⟩
  rw [mainWords, mainWords, hg]

/-- An environment with one note of the expected model in a nonempty
deck. -/
def oneWordEnv : FetchEnv :=
  ⟨.ok [], .ok [(1 : Int)], .ok [⟨"Words", [], [("Word", "w")]⟩]⟩

/-- C8 witness: template lists placing `"Word"` at ordinal 0 and at
ordinal 1 produce identical fetch results and outcomes. -/
theorem c8_template_ordinal_unused_witness :
    getWords { oneWordEnv with modelTemplatesCall := .ok [("Word", "c")] }
        "Words" "Word" =
      getWords { oneWordEnv with
        modelTemplatesCall := .ok [("Other", "c"), ("Word", "c")] }
        "Words" "Word" ∧
    mainWords { oneWordEnv with modelTemplatesCall := .ok [("Word", "c")] } =
      mainWords { oneWordEnv with
        modelTemplatesCall := .ok [("Other", "c"), ("Word", "c")] } :=
  c8_template_ordinal_unused oneWordEnv [("Word", "c")]
    [("Other", "c"), ("Word", "c")] (by decide) (by decide)
